import Mathlib

/-!
# Verification of the fractal agent-orchestration core

A shallow embedding of the core of the `fractal` repository
(`fractal/toolkit.py`, `fractal/agent.py`, `fractal/parser.py`,
`fractal/observability/tracing.py`) together with theorems settling the
behavioural claims about that code.

Modelling conventions:

* Python callables that make up tool bodies are modelled as total Lean
  functions returning `Except String Content`: `Except.error e` models the
  body raising an exception whose `str()` is `e`.
* Keyword-argument mappings (the parsed JSON arguments of a tool call) are
  modelled as association lists of string-valued entries.  All the control
  logic under study is parametric in the argument values, so nothing is lost
  by fixing the value type to `String`.
* Structured tool/content values (pydantic models, dicts, lists) are opaque
  to the control flow under study; they are modelled by a constructor
  carrying the canonical serialized text the external JSON layer produces
  for them.
* `json.loads` (used by the agent loop on the model-provided argument
  strings) is an external collaborator and is passed in as a function
  `String → Except String Args`.
* Wall-clock timestamps and elapsed times in trace events are real-time
  quantities and are not modelled; the tracing state machine keeps the
  operation stack and side tables that drive its control flow, but events
  carry no timing fields.
-/

set_option autoImplicit false

namespace Fractal

/-- Parsed keyword arguments of a tool invocation (`**kwargs`). -/
abbrev Args := List (String × String)

/-- A tool's (or agent's) content value.

`fractal.agent` distinguishes `str`, pydantic `BaseModel`, `list` and `dict`
contents; the non-string cases are all serialized to a canonical JSON text by
the external serializer (pydantic / `json.dumps`) when turned into a tool
response.  The control flow only distinguishes "plain text" from "structured
value with a serialized form", which is what this type records. -/
inductive Content where
  | text (s : String)
  | structured (serialized : String)
  deriving DecidableEq, Repr

/-- The metadata dict of a `ToolResult` as built by
`AgentToolkit.execute_tool`: it always holds the call's arguments, and holds
a `terminate` entry only when the source put one in (`terminate : Option
Bool` models presence of the key). -/
structure ResultMeta where
  arguments : Args
  terminate : Option Bool
  deriving DecidableEq, Repr

/-- `fractal.models.ToolResult` (the fields the core logic reads). -/
structure ToolResult where
  content : Content
  toolName : String
  metadata : Option ResultMeta
  error : Option String
  deriving DecidableEq, Repr

/-- A registered tool: its body and its terminate flag.

The source keeps the callable in `_tools` and the flag in `_tool_terminate`;
the two dicts are updated together for every entry the executor can see, so
they are modelled as one record.  Sync and async bodies behave identically
through `execute_tool` (call vs. await), so a single body function models
both. -/
structure RegisteredTool where
  body : Args → Except String Content
  terminate : Bool

/-- The toolkit registry (`AgentToolkit`): the `_tools` mapping and the set
of names for which `_tool_schemas` holds an entry.  Schema *contents* are
produced by the docstring parser and are irrelevant to the claims settled
here; only which names have a stored schema is observable. -/
structure Toolkit where
  tools : List (String × RegisteredTool)
  schemaNames : List String

/-- Python dict assignment `d[k] = v` on an insertion-ordered assoc list:
replace in place if the key exists, else append. -/
def dictInsert {α : Type} (l : List (String × α)) (k : String) (v : α) :
    List (String × α) :=
  match l with
  | [] => [(k, v)]
  | (k', v') :: rest =>
      if k' = k then (k, v) :: rest else (k', v') :: dictInsert rest k v

/-- Python dict lookup `d.get(k)`. -/
def dictGet {α : Type} (l : List (String × α)) (k : String) : Option α :=
  match l with
  | [] => none
  | (k', v') :: rest => if k' = k then some v' else dictGet rest k

/-- Look a tool up in the registry (`self.get_tools()[tool_name]`). -/
def Toolkit.lookup (tk : Toolkit) (toolName : String) : Option RegisteredTool :=
  dictGet tk.tools toolName

/-- `AgentToolkit.execute_tool` (toolkit.py lines 453-499).

* unknown name: error result with a "not found" message and empty content;
* body raises: error result with the exception text, empty content, and a
  metadata dict holding only the arguments;
* body returns: success result wrapping the returned value, with metadata
  holding the arguments and the tool's terminate flag. -/
def Toolkit.executeTool (tk : Toolkit) (toolName : String) (kwargs : Args) :
    ToolResult :=
  match tk.lookup toolName with
  | none =>
      { content := .text ""
        toolName := toolName
        metadata := none
        error := some ("Tool '" ++ toolName ++ "' not found in toolkit") }
  | some t =>
      match t.body kwargs with
      | .ok v =>
          { content := v
            toolName := toolName
            metadata := some { arguments := kwargs, terminate := some t.terminate }
            error := none }
      | .error e =>
          { content := .text ""
            toolName := toolName
            metadata := some { arguments := kwargs, terminate := none }
            error := some e }

/-- `tool_result.metadata and tool_result.metadata.get('terminate', False)`
as evaluated by the agent loop. -/
def metaTerminate (r : ToolResult) : Bool :=
  match r.metadata with
  | none => false
  | some m => m.terminate.getD false

/-- A tool-call request from the model (`message.tool_calls[i]`): id, the
`type` field (always `"function"` for this API), the function name, and the
JSON-encoded argument string. -/
structure ToolCall where
  id : String
  callType : String
  name : String
  arguments : String
  deriving DecidableEq, Repr

/-- A conversation-history entry (`self.messages[i]`), one constructor per
role.  An assistant entry's `tool_calls` key is present iff the model
requested at least one tool call, so `toolCalls = []` models the key being
absent.  A tool entry carries `tool_call_id`, `name` and `content`. -/
inductive Msg where
  | system (content : String)
  | user (content : String)
  | assistant (content : Option String) (toolCalls : List ToolCall)
  | tool (toolCallId : String) (name : String) (content : String)
  deriving DecidableEq, Repr

/-- The `tool_call_id` of a tool-response entry, if the entry is one. -/
def Msg.toolCallIdOf : Msg → Option String
  | .tool id _ _ => some id
  | _ => none

/-- The metadata dict of an `AgentResult` (the entries the dispatch slice of
`run()` writes). -/
structure RunMeta where
  iterations : Nat
  model : Option String
  terminatedByTool : Option String
  deriving DecidableEq, Repr

/-- `fractal.models.AgentResult`. -/
structure AgentResult where
  content : Content
  agentName : String
  success : Bool
  metadata : RunMeta
  deriving DecidableEq, Repr

/-- Serialization of a tool outcome into the tool-response message content
(agent.py lines 502-521): an error becomes `"Error: ..."`; string content
passes through; every structured content (pydantic model, list, dict) is
rendered as the canonical text the external serializer produced for it. -/
def serializeToolResponse (r : ToolResult) : String :=
  match r.error with
  | some e => "Error: " ++ e
  | none =>
      match r.content with
      | .text s => s
      | .structured j => j

/-- Phase 1 of tool dispatch (agent.py lines 413-433): the inline error
tool-responses appended immediately for calls whose argument string fails to
parse, in request order. -/
def invalidArgMsgs (parseJson : String → Except String Args)
    (toolCalls : List ToolCall) : List Msg :=
  toolCalls.filterMap fun tc =>
    match parseJson tc.arguments with
    | .error e => some (.tool tc.id tc.name ("Error: Invalid tool arguments - " ++ e))
    | .ok _ => none

/-- Phase 1, the other half: `valid_tool_calls`, the calls whose argument
string parses, paired with their parsed arguments, in request order. -/
def validToolCalls (parseJson : String → Except String Args)
    (toolCalls : List ToolCall) : List (ToolCall × Args) :=
  toolCalls.filterMap fun tc =>
    match parseJson tc.arguments with
    | .ok a => some (tc, a)
    | .error _ => none

/-- Phase 3 (agent.py lines 447-457): the valid calls executed through
`execute_tool`.  `asyncio.gather` returns results in the order the awaitables
were passed regardless of completion order, so the result list is in request
order; `executeTool` is total, so the `isinstance(result, Exception)` branch
of phase 4 is unreachable in the model. -/
def toolResults (tk : Toolkit) (parseJson : String → Except String Args)
    (toolCalls : List ToolCall) : List (ToolCall × ToolResult) :=
  (validToolCalls parseJson toolCalls).map fun p => (p.1, tk.executeTool p.1.name p.2)

/-- The tool-response message appended for one executed call. -/
def toolResponseMsg (p : ToolCall × ToolResult) : Msg :=
  .tool p.1.id p.1.name (serializeToolResponse p.2)

/-- One step of the phase-4 loop (agent.py lines 459-529): remember the
first terminating successful result, and append this call's tool-response
message. -/
def respondStep (acc : List Msg × Option (String × ToolResult))
    (p : ToolCall × ToolResult) : List Msg × Option (String × ToolResult) :=
  let term :=
    match acc.2 with
    | some t => some t
    | none =>
        if metaTerminate p.2 && p.2.error.isNone then some (p.1.name, p.2) else none
  (acc.1 ++ [toolResponseMsg p], term)

/-- The `termination_result` that phase 4 ends up with: the first result in
iteration order that is marked terminating and has no error. -/
def findTermination (results : List (ToolCall × ToolResult)) :
    Option (String × ToolResult) :=
  (results.find? fun p => metaTerminate p.2 && p.2.error.isNone).map fun p => (p.1.name, p.2)

/-- The tool-dispatch slice of one `run()` iteration (agent.py lines
406-551), entered after the assistant message has been appended: phase 1
appends inline errors for unparseable argument strings, phases 3-4 execute
the valid calls and append their responses in request order, and phase 5
turns a terminating result into the returned `AgentResult`.  Returns the
updated history and `some result` when the loop returns. -/
def processToolCalls (agentName model : String) (iteration : Nat)
    (tk : Toolkit) (parseJson : String → Except String Args)
    (messages : List Msg) (toolCalls : List ToolCall) :
    List Msg × Option AgentResult :=
  let messages1 := messages ++ invalidArgMsgs parseJson toolCalls
  let results := toolResults tk parseJson toolCalls
  let folded := results.foldl respondStep (messages1, none)
  match folded.2 with
  | some (fname, r) =>
      (folded.1,
       some { content := r.content
              agentName := agentName
              success := true
              metadata :=
                { iterations := iteration
                  model := some model
                  terminatedByTool := some fname } })
  | none => (folded.1, none)

/-- `_estimate_tokens` (agent.py lines 695-703) in the tokenizer-less
fallback: `len(text) // 4 + 1`.  (With `tiktoken` importable the source uses
a model tokenizer instead; the external tokenizer is out of scope, and every
property proved here depends only on the estimator being the same function
on both sides of the budget comparison.) -/
def estimateTokens (text : String) : Nat := text.length / 4 + 1

/-- Lowercase hexadecimal digit, as Python's `json` escapes emit. -/
def hexDigit (n : Nat) : Char :=
  if n < 10 then Char.ofNat (48 + n) else Char.ofNat (87 + n)

/-- Four lowercase hex digits. -/
def hex4 (n : Nat) : String :=
  String.mk [hexDigit (n / 4096 % 16), hexDigit (n / 256 % 16),
    hexDigit (n / 16 % 16), hexDigit (n % 16)]

/-- One character of `json.dumps` string output with the default
`ensure_ascii=True`: backslash escapes for quote, backslash and the common
control characters, `\uXXXX` for other controls and all non-ASCII (surrogate
pairs above the BMP), everything in `0x20`-`0x7e` verbatim. -/
def pyJsonEscapeChar (c : Char) : String :=
  if c = '"' then "\\\""
  else if c = '\\' then "\\\\"
  else if c = '\n' then "\\n"
  else if c = '\t' then "\\t"
  else if c = '\r' then "\\r"
  else if c.toNat = 8 then "\\b"
  else if c.toNat = 12 then "\\f"
  else if c.toNat < 32 then "\\u" ++ hex4 c.toNat
  else if c.toNat < 127 then String.singleton c
  else if c.toNat < 65536 then "\\u" ++ hex4 c.toNat
  else
    "\\u" ++ hex4 (55296 + (c.toNat - 65536) / 1024) ++
      "\\u" ++ hex4 (56320 + (c.toNat - 65536) % 1024)

/-- `json.dumps` of a string. -/
def pyJsonStr (s : String) : String :=
  "\"" ++ String.join (s.toList.map pyJsonEscapeChar) ++ "\""

/-- `json.dumps` (default separators) of one serialized tool-call dict as
stored in an assistant message (agent.py lines 391-401). -/
def dumpToolCall (tc : ToolCall) : String :=
  "\x7b" ++ pyJsonStr "id" ++ ": " ++ pyJsonStr tc.id ++ ", " ++
    pyJsonStr "type" ++ ": " ++ pyJsonStr tc.callType ++ ", " ++
    pyJsonStr "function" ++ ": \x7b" ++ pyJsonStr "name" ++ ": " ++
    pyJsonStr tc.name ++ ", " ++ pyJsonStr "arguments" ++ ": " ++
    pyJsonStr tc.arguments ++ "\x7d\x7d"

/-- `json.dumps` of an assistant message's `tool_calls` list. -/
def dumpToolCalls (tcs : List ToolCall) : String :=
  "[" ++ String.intercalate ", " (tcs.map dumpToolCall) ++ "]"

/-- The contribution of one message dict to `_estimate_message_tokens`
(agent.py lines 705-721): 4 tokens of per-message overhead, plus, per key,
the estimate of a string value (or of the `json.dumps` of a list value —
`tool_calls` is the only list-valued key) and 1 for the key name.  An
assistant entry whose `content` is `None` contributes only the key-name
token for `content`. -/
def msgTokens : Msg → Nat
  | .system c => 4 + (estimateTokens "system" + 1) + (estimateTokens c + 1)
  | .user c => 4 + (estimateTokens "user" + 1) + (estimateTokens c + 1)
  | .assistant c tcs =>
      4 + (estimateTokens "assistant" + 1) +
        (match c with
         | some s => estimateTokens s + 1
         | none => 1) +
        (if tcs.isEmpty then 0 else estimateTokens (dumpToolCalls tcs) + 1)
  | .tool id nm c =>
      4 + (estimateTokens "tool" + 1) + (estimateTokens id + 1) +
        (estimateTokens nm + 1) + (estimateTokens c + 1)

/-- `_estimate_message_tokens`: the per-message sums plus 2 tokens of reply
priming. -/
def estimateMessageTokens (messages : List Msg) : Nat :=
  messages.foldl (fun total msg => total + msgTokens msg) 0 + 2

/-- `msg.get("role") == "assistant" and msg.get("tool_calls")` — the
grouping head test of `_group_messages`. -/
def Msg.hasToolCalls : Msg → Bool
  | .assistant _ tcs => !tcs.isEmpty
  | _ => false

/-- `messages[j].get("role") == "tool"`. -/
def Msg.isToolRole : Msg → Bool
  | .tool _ _ _ => true
  | _ => false

/-- `BaseAgent._group_messages` (agent.py lines 723-747): partition into
atomic units — an assistant message with tool calls absorbs the maximal run
of tool-role messages that immediately follows it; every other message is a
singleton group.  The source's index loop is rendered with
`takeWhile`/`dropWhile` on the remainder. -/
def groupMessages : List Msg → List (List Msg)
  | [] => []
  | m :: rest =>
      if m.hasToolCalls then
        (m :: rest.takeWhile Msg.isToolRole) ::
          groupMessages (rest.dropWhile Msg.isToolRole)
      else [m] :: groupMessages rest
termination_by l => l.length
decreasing_by
  · have h := (List.dropWhile_sublist Msg.isToolRole (l := rest)).length_le
    simp only [List.length_cons]
    omega
  · simp only [List.length_cons]
    omega

/-- The budget left for conversation groups in `_prepare_messages`
(agent.py lines 764-777): window minus system-message estimate, minus the
serialized tool-schema estimate, minus the response reserve.  The schema
payload enters as the `json.dumps` text of `get_tool_schemas()` (`none`
models an agent with no tools, for which the source adds no schema cost). -/
def schemaTokens (toolSchemasJson : Option String) : Nat :=
  match toolSchemasJson with
  | none => 0
  | some s => estimateTokens s

def availableBudget (window : Nat) (maxTokens : Option Nat)
    (toolSchemasJson : Option String) (messages : List Msg) : Int :=
  (window : Int) - estimateMessageTokens (messages.take 1) -
    schemaTokens toolSchemasJson - (maxTokens.getD 4096 : Nat)

/-- The newest-to-oldest keep loop of `_prepare_messages` (agent.py lines
783-793): walk the groups newest first, keep a group while the running total
stays within budget, stop at the first overflow; the kept groups are
returned in chronological order (the source's `insert(0, group)`). -/
def keepGroups (available : Int) : List (List Msg) → Nat → List (List Msg)
  | [], _ => []
  | g :: older, kept =>
      if (kept : Int) + estimateMessageTokens g ≤ available then
        keepGroups available older (kept + estimateMessageTokens g) ++ [g]
      else []

/-- The groups `_prepare_messages` keeps for a given configuration. -/
def keptGroupsOf (window : Nat) (maxTokens : Option Nat)
    (toolSchemasJson : Option String) (messages : List Msg) : List (List Msg) :=
  keepGroups (availableBudget window maxTokens toolSchemasJson messages)
    (groupMessages (messages.drop 1)).reverse 0

/-- `BaseAgent._prepare_messages` (agent.py lines 749-800): with no
configured window return the history as-is; with a window, fall back to the
full history when the remaining budget is non-positive, else return the
system message followed by the kept groups flattened in order. -/
def prepareMessages (contextWindow : Option Nat) (maxTokens : Option Nat)
    (toolSchemasJson : Option String) (messages : List Msg) : List Msg :=
  match contextWindow with
  | none => messages
  | some window =>
      if availableBudget window maxTokens toolSchemasJson messages ≤ 0 then messages
      else
        messages.take 1 ++
          (keptGroupsOf window maxTokens toolSchemasJson messages).flatten

/-- The exceptions Python's `str.format` can raise on the template shapes
the agent uses: a missing keyword (`KeyError`), a malformed brace
(`ValueError`), or a positional/auto-numbered field with no positional
arguments (`IndexError`). -/
inductive FormatError where
  | keyError (k : String)
  | valueError (msg : String)
  | indexError
  deriving DecidableEq, Repr

/-- Scanner for `template.format(**ctx)` over the template's characters.

Models the subset of `str.format` the system prompts use: literal text,
`\x7b\x7b` / `\x7d\x7d` escapes, and plain named replacement fields
`\x7bname\x7d` looked up among the keyword arguments (a digits-only or empty
field is positional/auto-numbered and raises `IndexError` since no
positional arguments are passed; conversion/format-spec suffixes are not
modelled).  `field` is `some acc` (accumulated characters, reversed) while
inside a replacement field, `none` in literal text. -/
def formatScan (ctx : List (String × String)) (field : Option (List Char)) :
    List Char → Except FormatError String
  | [] =>
      match field with
      | none => .ok ""
      | some _ => .error (.valueError "expected closing brace before end of string")
  | c :: rest =>
      match field with
      | some acc =>
          if c = '\x7d' then
            let keyChars := acc.reverse
            if keyChars.all Char.isDigit then .error .indexError
            else
              match ctx.find? (fun kv => kv.1 = String.mk keyChars) with
              | some kv => (formatScan ctx none rest).map (fun t => kv.2 ++ t)
              | none => .error (.keyError (String.mk keyChars))
          else formatScan ctx (some (c :: acc)) rest
      | none =>
          if c = '\x7d' then
            match rest with
            | c2 :: rest2 =>
                if c2 = '\x7d' then (formatScan ctx none rest2).map (fun t => "\x7d" ++ t)
                else .error (.valueError "Single brace encountered in format string")
            | [] => .error (.valueError "Single brace encountered in format string")
          else if c = '\x7b' then
            match rest with
            | [] => .error (.valueError "Single brace encountered in format string")
            | c2 :: rest2 =>
                if c2 = '\x7b' then (formatScan ctx none rest2).map (fun t => "\x7b" ++ t)
                else if c2 = '\x7d' then .error .indexError
                else formatScan ctx (some [c2]) rest2
          else (formatScan ctx none rest).map (fun t => String.singleton c ++ t)

/-- `template.format(**ctx)` with keyword arguments only. -/
def pyFormat (template : String) (ctx : List (String × String)) :
    Except FormatError String :=
  formatScan ctx none template.toList

deriving instance DecidableEq for Except

/-- The `system_prompt` source held by an agent: a plain (possibly
template) string, or a zero-argument callable. -/
inductive SystemPromptSource where
  | text (s : String)
  | callable (f : Unit → String)

/-- The `BaseAgent.system_prompt` property (agent.py lines 110-130): invoke
a callable source; for a string source with a non-empty context, try
`format`, returning the raw template on `KeyError`; any other formatting
exception propagates; with an empty context return the string as-is. -/
def resolveSystemPrompt (src : SystemPromptSource)
    (ctx : List (String × String)) : Except FormatError String :=
  match src with
  | .callable f => .ok (f ())
  | .text s =>
      if ctx.isEmpty then .ok s
      else
        match pyFormat s ctx with
        | .ok r => .ok r
        | .error (.keyError _) => .ok s
        | .error e => .error e

/-- Python type hints as they matter to `_unwrap_type` /
`_validate_tool_function` (toolkit.py lines 26-114): a bare class (named by
its class name), `Optional[X]`, a multi-member `Union`, or a generic
`list`/`dict` alias.  `empty` is `inspect.Parameter.empty` (no hint). -/
inductive PyTypeHint where
  | empty
  | plain (n : String)
  | optional (a : PyTypeHint)
  | unionMulti
  | listGeneric
  | dictGeneric
  deriving DecidableEq, Repr

/-- `_unwrap_type`, by class name.  `none` means validation is skipped for
this hint (multi-member union, or no hint at all — the source skips the
empty case just before calling `_unwrap_type`, with the same effect). -/
def unwrapTypeHint : PyTypeHint → Option String
  | .empty => none
  | .plain n => some n
  | .optional a => unwrapTypeHint a
  | .unionMulti => none
  | .listGeneric => some "list"
  | .dictGeneric => some "dict"

/-- `_SUPPORTED_TYPES`, by class name. -/
def supportedTypeNames : List String := ["str", "int", "float", "bool", "list", "dict"]

/-- A parameter of a Python callable's signature as seen by the validator. -/
structure PyParam where
  name : String
  hint : PyTypeHint
  deriving DecidableEq, Repr

/-- A Python callable as seen by registration: its `__name__`, its
`inspect.getdoc` result, its signature parameters, and its body. -/
structure PyFunc where
  name : String
  doc : Option String
  params : List PyParam
  body : Args → Except String Content

/-- `_validate_tool_function` (toolkit.py lines 44-114): returns
`some message` when it raises `TypeError`, `none` when it merely warns or
passes.  With no docstring it returns early (warning only) without checking
any parameter hint; otherwise the first non-`self` parameter whose unwrapped
hint is outside the supported set raises. -/
def validateToolFunction (f : PyFunc) (toolName : String) : Option String :=
  match f.doc with
  | none => none
  | some _ =>
      f.params.findSome? fun p =>
        if p.name = "self" then none
        else
          match unwrapTypeHint p.hint with
          | none => none
          | some base =>
              if base ∈ supportedTypeNames then none
              else
                some ("Tool '" ++ toolName ++ "': parameter '" ++ p.name ++
                  "' has unsupported type annotation '" ++ base ++
                  "'. Supported types: str, int, float, bool, list, dict.")

/-- `AgentToolkit.add_tool` (toolkit.py lines 210-280), plain-function path
(the decorated path differs only in where the name and terminate flag are
read from).  Mirrors the source's order of effects: the callable and its
terminate flag are stored in the registry dicts *before*
`_validate_tool_function` runs; a raised `TypeError` (returned as
`some message`) therefore leaves the callable registered, and only the
schema store is skipped. -/
def Toolkit.addTool (tk : Toolkit) (f : PyFunc) (name : Option String)
    (terminate : Bool) : Toolkit × Option String :=
  let toolName := name.getD f.name
  let tools' := dictInsert tk.tools toolName { body := f.body, terminate := terminate }
  match validateToolFunction f toolName with
  | some err => ({ tools := tools', schemaNames := tk.schemaNames }, some err)
  | none =>
      ({ tools := tools'
         schemaNames :=
           if toolName ∈ tk.schemaNames then tk.schemaNames
           else tk.schemaNames ++ [toolName] }, none)

/-- A trace event (`fractal.observability.tracing.TraceEvent`), restricted
to the fields the delegation-tracking control flow writes and the claims
read.  Wall-clock `timestamp`/`elapsed_time` are real-time quantities and
are not modelled; `arguments`/`result`/`error`/`metadata` are opaque
payloads that no claim here inspects. -/
structure TraceEv where
  eventType : String
  agentName : String
  runId : Option String
  parentAgent : Option String
  delegationDepth : Nat
  toolName : Option String
  toolCallId : Option String
  deriving DecidableEq, Repr

/-- An operation-stack frame of `TracingKit` (`_operation_stack` entries:
`{'type': 'agent'|'tool'|'delegation', ...}`; the per-frame start times feed
only the unmodelled elapsed-time fields). -/
inductive Frame where
  | agentF (name : String)
  | toolF (name : String)
  | delegationF (fromAgent toAgent : String)
  deriving DecidableEq, Repr

/-- The mutable state of a `TracingKit`: the event list, the operation stack
(list head = top of the Python list), the delegation-depth counter, the
current-parent cursor, the active run id, and the ids in
`_tool_start_times` (their stored times feed only elapsed-time fields). -/
structure TState where
  events : List TraceEv
  stack : List Frame
  depth : Nat
  parent : Option String
  runId : Option String
  toolStarts : List String
  deriving DecidableEq, Repr

/-- `TracingKit._add_event`: stamp the current run id onto the event and
append it. -/
def addEvent (e : TraceEv) (s : TState) : TState :=
  { s with events := s.events ++ [{ e with runId := s.runId }] }

/-- `TracingKit.start_run`: clear all per-run state and set the new run id
(output-path resolution is file I/O, out of scope). -/
def startRun (rid : String) (_s : TState) : TState :=
  { events := [], stack := [], depth := 0, parent := none,
    runId := some rid, toolStarts := [] }

/-- `TracingKit.end_run`: clear only the run id. -/
def endRun (s : TState) : TState := { s with runId := none }

/-- `TracingKit.start_agent`: push an agent frame and emit `agent_start` at
the current depth and parent. -/
def startAgent (name : String) (s : TState) : TState :=
  addEvent
    { eventType := "agent_start", agentName := name, runId := none,
      parentAgent := s.parent, delegationDepth := s.depth,
      toolName := none, toolCallId := none }
    { s with stack := Frame.agentF name :: s.stack }

/-- `TracingKit.end_agent`: pop the top frame if it is an agent frame, then
emit `agent_end` at the current depth and parent. -/
def endAgent (name : String) (s : TState) : TState :=
  let s1 :=
    match s.stack with
    | Frame.agentF _ :: rest => { s with stack := rest }
    | _ => s
  addEvent
    { eventType := "agent_end", agentName := name, runId := none,
      parentAgent := s1.parent, delegationDepth := s1.depth,
      toolName := none, toolCallId := none }
    s1

/-- `TracingKit.start_tool_call`: with a call id, track it in the side
table; without one, push a tool frame (legacy nesting).  Emits `tool_call`. -/
def startToolCall (agentName toolName : String) (toolCallId : Option String)
    (s : TState) : TState :=
  let s1 :=
    match toolCallId with
    | some i => { s with toolStarts := i :: s.toolStarts }
    | none => { s with stack := Frame.toolF toolName :: s.stack }
  addEvent
    { eventType := "tool_call", agentName := agentName, runId := none,
      parentAgent := s.parent, delegationDepth := s.depth,
      toolName := some toolName, toolCallId := toolCallId }
    s1

/-- Remove the first occurrence of a key (`dict.pop` on the side table,
which holds each id once per in-flight call). -/
def removeFirst (i : String) : List String → List String
  | [] => []
  | x :: rest => if x = i then rest else x :: removeFirst i rest

/-- `TracingKit.end_tool_call`: settle timing bookkeeping (side table when
the id is tracked, else legacy stack pop), then emit `tool_result`. -/
def endToolCall (agentName toolName : String) (toolCallId : Option String)
    (s : TState) : TState :=
  let s1 :=
    match toolCallId with
    | some i =>
        if i ∈ s.toolStarts then { s with toolStarts := removeFirst i s.toolStarts }
        else
          match s.stack with
          | Frame.toolF _ :: rest => { s with stack := rest }
          | _ => s
    | none =>
        match s.stack with
        | Frame.toolF _ :: rest => { s with stack := rest }
        | _ => s
  addEvent
    { eventType := "tool_result", agentName := agentName, runId := none,
      parentAgent := s.parent, delegationDepth := s.depth,
      toolName := some toolName, toolCallId := toolCallId }
    s1

/-- `TracingKit.start_delegation`: push a delegation frame, increment the
depth, point the parent cursor at the delegating agent, and emit
`agent_delegate` at the *calling* agent's depth (`new depth - 1`), with the
event's parent taken from the just-updated cursor when the new depth
exceeds 1. -/
def startDelegation (fromAgent toAgent : String) (s : TState) : TState :=
  addEvent
    { eventType := "agent_delegate", agentName := fromAgent, runId := none,
      parentAgent := if 1 < s.depth + 1 then some fromAgent else none,
      delegationDepth := (s.depth + 1) - 1,
      toolName := none, toolCallId := none }
    { s with stack := Frame.delegationF fromAgent toAgent :: s.stack,
             depth := s.depth + 1,
             parent := some fromAgent }

/-- The `for item in reversed(self._operation_stack)` walk of
`end_delegation`: the nearest agent frame from the top. -/
def findAgentFrame : List Frame → Option String
  | [] => none
  | f :: rest =>
      match f with
      | .agentF n => some n
      | _ => findAgentFrame rest

/-- `TracingKit.end_delegation`: pop the top frame if it is a delegation
frame, decrement the depth (floored at 0), then update the parent cursor —
to the nearest agent frame on the remaining stack when the new depth is
positive and the stack is non-empty (left unchanged if no agent frame is
found), to `None` otherwise — and emit `delegation_end` at the new depth. -/
def endDelegation (fromAgent toAgent : String) (s : TState) : TState :=
  let s1 :=
    match s.stack with
    | Frame.delegationF _ _ :: rest => { s with stack := rest }
    | _ => s
  let s2 := { s1 with depth := s1.depth - 1 }
  let s3 :=
    if 0 < s2.depth ∧ s2.stack ≠ [] then
      match findAgentFrame s2.stack with
      | some n => { s2 with parent := some n }
      | none => s2
    else { s2 with parent := none }
  addEvent
    { eventType := "delegation_end", agentName := fromAgent, runId := none,
      parentAgent := s3.parent, delegationDepth := s3.depth,
      toolName := none, toolCallId := none }
    s3

/-- The tracing calls one `run()` of a chain agent makes against the shared
recorder, for the delegation-chain scenario (coordinator delegates to the
next agent via the synthesized delegate tool of
`AgentToolkit.register_delegate`, each delegate in turn delegating down the
chain, the last agent answering directly):

* `start_agent` on entry (no `start_run` — the run is already active);
* if delegating: `start_tool_call` for the delegate tool (the loop always
  passes the model's tool-call id), then inside the tool body
  `start_delegation`, the delegate's own `run()`, `end_delegation`, then
  `end_tool_call`; the next iteration's model turn has no tool calls;
* `end_agent` and `end_run` on the way out (every agent's `run()` calls
  `end_run`, delegated ones included). -/
def chainRun : String → List String → TState → TState
  | name, [], s => endRun (endAgent name (startAgent name s))
  | name, next :: rest, s =>
      let s1 := startAgent name s
      let s2 := startToolCall name ("delegate_to_" ++ next) (some ("call_" ++ next)) s1
      let s3 := startDelegation name next s2
      let s4 := chainRun next rest s3
      let s5 := endDelegation name next s4
      let s6 := endToolCall name ("delegate_to_" ++ next) (some ("call_" ++ next)) s5
      endRun (endAgent name s6)

/-- A fresh recorder before any run. -/
def initState : TState :=
  { events := [], stack := [], depth := 0, parent := none,
    runId := none, toolStarts := [] }

/-- The full event log of one delegation-chain run: the top-level agent
starts the run (its `run_id` is fresh and no run is active), then the chain
executes. -/
def chainTrace (names : List String) : List TraceEv :=
  match names with
  | [] => []
  | a :: rest => (chainRun a rest (startRun "run0" initState)).events

/-- The events a chain segment appends, as an explicit list: entering with
run id `rid`, depth `d` and parent cursor `p`, agent `c` delegating down
`rest`.  The three closing events carry run id `none` because the delegated
agent's `run()` has already called `end_run`. -/
def chainEvents (rid : Option String) (d : Nat) (p : Option String) (c : String) :
    List String → List TraceEv
  | [] =>
      [{ eventType := "agent_start", agentName := c, runId := rid,
         parentAgent := p, delegationDepth := d, toolName := none, toolCallId := none },
       { eventType := "agent_end", agentName := c, runId := rid,
         parentAgent := p, delegationDepth := d, toolName := none, toolCallId := none }]
  | next :: rest =>
      { eventType := "agent_start", agentName := c, runId := rid,
        parentAgent := p, delegationDepth := d, toolName := none, toolCallId := none } ::
      { eventType := "tool_call", agentName := c, runId := rid,
        parentAgent := p, delegationDepth := d,
        toolName := some ("delegate_to_" ++ next), toolCallId := some ("call_" ++ next) } ::
      { eventType := "agent_delegate", agentName := c, runId := rid,
        parentAgent := if 1 < d + 1 then some c else none, delegationDepth := (d + 1) - 1,
        toolName := none, toolCallId := none } ::
      (chainEvents rid (d + 1) (some c) next rest ++
       [{ eventType := "delegation_end", agentName := c, runId := none,
          parentAgent := if 0 < d then some c else none, delegationDepth := d,
          toolName := none, toolCallId := none },
        { eventType := "tool_result", agentName := c, runId := none,
          parentAgent := if 0 < d then some c else none, delegationDepth := d,
          toolName := some ("delegate_to_" ++ next), toolCallId := some ("call_" ++ next) },
        { eventType := "agent_end", agentName := c, runId := none,
          parentAgent := if 0 < d then some c else none, delegationDepth := d,
          toolName := none, toolCallId := none }])

end Fractal

namespace Fractal

/-- Looking up the key just inserted by a dict assignment finds the new
value. -/
theorem dictGet_dictInsert {α : Type} (l : List (String × α)) (k : String) (v : α) :
    dictGet (dictInsert l k v) k = some v := by
  induction l with
  | nil => simp [dictInsert, dictGet]
  | cons hd tl ih =>
      obtain ⟨k', v'⟩ := hd
      by_cases h : k' = k
      · simp [dictInsert, h, dictGet]
      · simp [dictInsert, h, dictGet, ih]

/-- If some element of the list produces a `some`, `findSome?` is `some`. -/
theorem findSome?_isSome_of_mem {α β : Type} {l : List α} {f : α → Option β}
    {x : α} (hx : x ∈ l) (hfx : (f x).isSome = true) :
    (l.findSome? f).isSome = true := by
  induction l with
  | nil => cases hx
  | cons hd tl ih =>
      rcases List.mem_cons.mp hx with h | h
      · subst h
        obtain ⟨b, hb⟩ := Option.isSome_iff_exists.mp hfx
        simp [List.findSome?, hb]
      · cases hhd : f hd with
        | none => simpa [List.findSome?, hhd] using ih h
        | some b' => simp [List.findSome?, hhd]

/-- C3: for every tool name and argument mapping, `execute_tool` never
raises: an unregistered name yields a result with a non-null "not found"
error and empty content; a body that throws yields a result with that
exception's text as error and empty content; otherwise the tool's value is
returned as success content.  (`executeTool` is a total function, so the
absence of a process-level exception is by construction; the theorem pins
down the three outcome shapes.) -/
theorem executeTool_outcomes (tk : Toolkit) (name : String) (kwargs : Args) :
    (tk.lookup name = none →
      tk.executeTool name kwargs =
        { content := .text ""
          toolName := name
          metadata := none
          error := some ("Tool '" ++ name ++ "' not found in toolkit") }) ∧
    (∀ t e, tk.lookup name = some t → t.body kwargs = .error e →
      tk.executeTool name kwargs =
        { content := .text ""
          toolName := name
          metadata := some { arguments := kwargs, terminate := none }
          error := some e }) ∧
    (∀ t v, tk.lookup name = some t → t.body kwargs = .ok v →
      tk.executeTool name kwargs =
        { content := v
          toolName := name
          metadata := some { arguments := kwargs, terminate := some t.terminate }
          error := none }) := by
  refine ⟨fun h => ?_, fun t e ht hb => ?_, fun t v ht hb => ?_⟩
  · simp [Toolkit.executeTool, h]
  · simp [Toolkit.executeTool, ht, hb]
  · simp [Toolkit.executeTool, ht, hb]

/-- A tiny concrete registry for witnesses: one succeeding tool and one
always-throwing tool. -/
def tkDemo : Toolkit :=
  { tools :=
      [("echo", { body := fun _ => .ok (.text "echoed"), terminate := false }),
       ("boom", { body := fun _ => .error "Simulated tool error", terminate := true })]
    schemaNames := ["echo", "boom"] }

/-- Witness for C3: the three branches of `executeTool_outcomes` discharged
on the concrete registry `tkDemo`. -/
theorem executeTool_outcomes_witness :
    tkDemo.executeTool "missing" [] =
      { content := .text ""
        toolName := "missing"
        metadata := none
        error := some "Tool 'missing' not found in toolkit" } ∧
    tkDemo.executeTool "boom" [] =
      { content := .text ""
        toolName := "boom"
        metadata := some { arguments := [], terminate := none }
        error := some "Simulated tool error" } ∧
    tkDemo.executeTool "echo" [] =
      { content := .text "echoed"
        toolName := "echo"
        metadata := some { arguments := [], terminate := some false }
        error := none } := by
  refine ⟨?_, ?_, ?_⟩
  · exact (executeTool_outcomes tkDemo "missing" []).1 (by rfl)
  · exact (executeTool_outcomes tkDemo "boom" []).2.1 _ _ (by rfl) (by rfl)
  · exact (executeTool_outcomes tkDemo "echo" []).2.2 _ _ (by rfl) (by rfl)

/-- C8 counterexample: the claim says every `execute_tool` invocation's
result metadata records the tool's terminate flag.  For the registered tool
`"boom"` — terminate flag `true`, body always throwing — the returned
metadata has *no* terminate entry at all, so the flag is not recorded. -/
theorem executeTool_metadata_counterexample :
    (tkDemo.lookup "boom").map RegisteredTool.terminate = some true ∧
    ((tkDemo.executeTool "boom" []).metadata.bind ResultMeta.terminate) = none := by
  exact ⟨rfl, rfl⟩

/-- C8 (amended): `execute_tool` records the terminate flag in the result's
metadata only on successful execution; when the tool's body throws, the
metadata holds only the arguments (no terminate entry), and when the name is
not registered the metadata is null. -/
theorem executeTool_metadata_terminate (tk : Toolkit) (name : String) (kwargs : Args) :
    (∀ t v, tk.lookup name = some t → t.body kwargs = .ok v →
      ((tk.executeTool name kwargs).metadata.bind ResultMeta.terminate) = some t.terminate) ∧
    (∀ t e, tk.lookup name = some t → t.body kwargs = .error e →
      (tk.executeTool name kwargs).metadata = some { arguments := kwargs, terminate := none }) ∧
    (tk.lookup name = none → (tk.executeTool name kwargs).metadata = none) := by
  refine ⟨fun t v ht hb => ?_, fun t e ht hb => ?_, fun h => ?_⟩
  · simp [Toolkit.executeTool, ht, hb, Option.bind]
  · simp [Toolkit.executeTool, ht, hb]
  · simp [Toolkit.executeTool, h]

/-- Witness for C8 (amended), on the concrete registry `tkDemo`. -/
theorem executeTool_metadata_terminate_witness :
    ((tkDemo.executeTool "echo" []).metadata.bind ResultMeta.terminate) = some false ∧
    (tkDemo.executeTool "boom" []).metadata = some { arguments := [], terminate := none } ∧
    (tkDemo.executeTool "missing" []).metadata = none := by
  refine ⟨?_, ?_, ?_⟩
  · exact (executeTool_metadata_terminate tkDemo "echo" []).1 _ _ (by rfl) (by rfl)
  · exact (executeTool_metadata_terminate tkDemo "boom" []).2.1 _ _ (by rfl) (by rfl)
  · exact (executeTool_metadata_terminate tkDemo "missing" []).2.2 (by rfl)

/-- An empty toolkit (a fresh `AgentToolkit()` with no target). -/
def tkEmpty : Toolkit := { tools := [], schemaNames := [] }

/-- A documented function with a `tuple`-annotated parameter whose body
returns a value — the registration the C9 claim quantifies over. -/
def badTupleTool : PyFunc :=
  { name := "bad_tuple_tool"
    doc := some "Do a thing.\n\nArgs:\n    x (tuple): a pair"
    params := [{ name := "self", hint := .empty }, { name := "x", hint := .plain "tuple" }]
    body := fun _ => .ok (.text "body ran") }

/-- C9 counterexample: registering `badTupleTool` does raise a `TypeError`,
but because `add_tool` stores the callable in `_tools` before validating,
executing the tool by name afterwards *does* reach the tool's body (it
returns the body's value as success content) — refuting the claim's "does
not reach the tool's body". -/
theorem addTool_callable_after_raise_counterexample :
    ((tkEmpty.addTool badTupleTool none false).2).isSome = true ∧
    ((tkEmpty.addTool badTupleTool none false).1.executeTool "bad_tuple_tool" []).error = none ∧
    ((tkEmpty.addTool badTupleTool none false).1.executeTool "bad_tuple_tool" []).content =
      .text "body ran" := by
  exact ⟨rfl, rfl, rfl⟩

/-- C9 (amended): for a function *with a docstring* and a non-`self`
parameter whose unwrapped type hint is unsupported, `add_tool` raises a
`TypeError` — but the callable has already been inserted into the registry
before validation runs, so executing the tool by name afterwards reaches the
tool's body and returns its value as success content.  For a function
without a docstring, validation returns early and no error is raised at
all. -/
theorem addTool_unsupported_hint_spec (tk : Toolkit) (f : PyFunc)
    (nm : Option String) (term : Bool) :
    (f.doc = none → (tk.addTool f nm term).2 = none) ∧
    (f.doc ≠ none →
      (∃ p ∈ f.params, p.name ≠ "self" ∧
          ∃ b, unwrapTypeHint p.hint = some b ∧ b ∉ supportedTypeNames) →
        ((tk.addTool f nm term).2.isSome = true ∧
         ∀ kwargs v, f.body kwargs = Except.ok v →
           (tk.addTool f nm term).1.executeTool (nm.getD f.name) kwargs =
             { content := v
               toolName := nm.getD f.name
               metadata := some { arguments := kwargs, terminate := some term }
               error := none })) := by
  constructor
  · intro hdoc
    simp [Toolkit.addTool, validateToolFunction, hdoc]
  · intro hdoc hex
    obtain ⟨p, hp, hself, b, hb, hbs⟩ := hex
    obtain ⟨d, hd⟩ := Option.ne_none_iff_exists'.mp hdoc
    have hval : (validateToolFunction f (nm.getD f.name)).isSome = true := by
      rw [validateToolFunction, hd]
      exact findSome?_isSome_of_mem hp (by simp [hself, hb, hbs])
    obtain ⟨err, herr⟩ := Option.isSome_iff_exists.mp hval
    have hlookup :
        ((tk.addTool f nm term).1).lookup (nm.getD f.name) =
          some { body := f.body, terminate := term } := by
      simp only [Toolkit.addTool, herr, Toolkit.lookup]
      exact dictGet_dictInsert _ _ _
    constructor
    · simp [Toolkit.addTool, herr]
    · intro kwargs v hbody
      simp [Toolkit.executeTool, hlookup, hbody]

/-- Witness for C9 (amended): discharged on the concrete registration of
`badTupleTool` into an empty toolkit. -/
theorem addTool_unsupported_hint_spec_witness :
    ((tkEmpty.addTool badTupleTool none false).2).isSome = true ∧
    (tkEmpty.addTool badTupleTool none false).1.executeTool "bad_tuple_tool"
        [("x", "pair")] =
      { content := .text "body ran"
        toolName := "bad_tuple_tool"
        metadata := some { arguments := [("x", "pair")], terminate := some false }
        error := none } := by
  have h := (addTool_unsupported_hint_spec tkEmpty badTupleTool none false).2
    (by simp [badTupleTool])
    ⟨{ name := "x", hint := .plain "tuple" }, by simp [badTupleTool], by simp,
      "tuple", rfl, by simp [supportedTypeNames]⟩
  exact ⟨h.1, h.2 [("x", "pair")] (.text "body ran") rfl⟩

/-- Unfolding one step of the phase-4 fold with no termination latched. -/
theorem respondStep_none (msgs : List Msg) (p : ToolCall × ToolResult) :
    respondStep (msgs, none) p =
      (msgs ++ [toolResponseMsg p],
       if metaTerminate p.2 && p.2.error.isNone then some (p.1.name, p.2) else none) := rfl

/-- Unfolding one step of the phase-4 fold with a termination latched. -/
theorem respondStep_some (msgs : List Msg) (t : String × ToolResult)
    (p : ToolCall × ToolResult) :
    respondStep (msgs, some t) p = (msgs ++ [toolResponseMsg p], some t) := rfl

/-- Once a termination result is latched, the phase-4 fold only appends
responses. -/
theorem respondStep_foldl_some (results : List (ToolCall × ToolResult))
    (msgs : List Msg) (t : String × ToolResult) :
    results.foldl respondStep (msgs, some t) =
      (msgs ++ results.map toolResponseMsg, some t) := by
  induction results generalizing msgs with
  | nil => simp
  | cons p rest ih =>
      rw [List.foldl_cons, respondStep_some, ih]
      simp

/-- The phase-4 fold appends one response per executed call, in order, and
latches the first terminating successful result. -/
theorem respondStep_foldl (results : List (ToolCall × ToolResult)) (msgs : List Msg) :
    results.foldl respondStep (msgs, none) =
      (msgs ++ results.map toolResponseMsg, findTermination results) := by
  induction results generalizing msgs with
  | nil => simp [findTermination]
  | cons p rest ih =>
      rw [List.foldl_cons, respondStep_none]
      cases hp : (metaTerminate p.2 && p.2.error.isNone) with
      | true =>
          rw [if_pos rfl, respondStep_foldl_some]
          simp [findTermination, List.find?, hp]
      | false =>
          rw [if_neg (by simp), ih]
          simp [findTermination, List.find?, hp]

/-- Every requested call is counted exactly once: either as an inline
parse-error response or as an executed call. -/
theorem invalid_valid_length (parseJson : String → Except String Args)
    (toolCalls : List ToolCall) :
    (invalidArgMsgs parseJson toolCalls).length +
      (validToolCalls parseJson toolCalls).length = toolCalls.length := by
  induction toolCalls with
  | nil => simp [invalidArgMsgs, validToolCalls]
  | cons tc rest ih =>
      cases h : parseJson tc.arguments with
      | ok a =>
          simp only [invalidArgMsgs, validToolCalls, List.filterMap_cons, h,
            List.length_cons] at ih ⊢
          omega
      | error e =>
          simp only [invalidArgMsgs, validToolCalls, List.filterMap_cons, h,
            List.length_cons] at ih ⊢
          omega

/-- C1: in an iteration where the model requests multiple tool calls and at
least one successfully executed tool is marked terminating, exactly one
termination signal is honored — the first terminating successful result in
iteration order — while every other requested call (including ones whose
arguments failed to parse and ones executed after the terminating one) still
gets its tool-response appended to the history before `run()` returns, and
the returned `AgentResult` carries the terminating tool's content with
`success = true` and `metadata.terminated_by_tool` naming that tool. -/
theorem processToolCalls_termination (agentName model : String) (iteration : Nat)
    (tk : Toolkit) (parseJson : String → Except String Args)
    (messages : List Msg) (toolCalls : List ToolCall)
    (tc₀ : ToolCall) (r₀ : ToolResult)
    (hmulti : 1 < toolCalls.length)
    (hfound : (toolResults tk parseJson toolCalls).find?
        (fun p => metaTerminate p.2 && p.2.error.isNone) = some (tc₀, r₀)) :
    processToolCalls agentName model iteration tk parseJson messages toolCalls =
      (messages ++ invalidArgMsgs parseJson toolCalls ++
        (toolResults tk parseJson toolCalls).map toolResponseMsg,
       some { content := r₀.content
              agentName := agentName
              success := true
              metadata :=
                { iterations := iteration
                  model := some model
                  terminatedByTool := some tc₀.name } }) ∧
    (processToolCalls agentName model iteration tk parseJson messages toolCalls).1.length =
      messages.length + toolCalls.length := by
  have hfold := respondStep_foldl (toolResults tk parseJson toolCalls)
    (messages ++ invalidArgMsgs parseJson toolCalls)
  have hterm : findTermination (toolResults tk parseJson toolCalls) = some (tc₀.name, r₀) := by
    simp [findTermination, hfound]
  have hmain :
      processToolCalls agentName model iteration tk parseJson messages toolCalls =
        (messages ++ invalidArgMsgs parseJson toolCalls ++
          (toolResults tk parseJson toolCalls).map toolResponseMsg,
         some { content := r₀.content
                agentName := agentName
                success := true
                metadata :=
                  { iterations := iteration
                    model := some model
                    terminatedByTool := some tc₀.name } }) := by
    simp only [processToolCalls, hfold, hterm]
  refine ⟨hmain, ?_⟩
  rw [hmain]
  have hcount := invalid_valid_length parseJson toolCalls
  simp only [List.length_append, List.length_map, toolResults, List.length_map]
  omega

/-- A registry with a terminating tool, for the C1 witness. -/
def tkTerm : Toolkit :=
  { tools :=
      [("echo", { body := fun _ => .ok (.text "echoed"), terminate := false }),
       ("finish", { body := fun _ => .ok (.text "done"), terminate := true })]
    schemaNames := ["echo", "finish"] }

/-- An external `json.loads` stand-in for witnesses: `"bad"` fails to
parse, everything else parses to an empty mapping. -/
def parseDemo : String → Except String Args := fun s =>
  if s = "bad" then .error "Expecting value: line 1 column 1 (char 0)" else .ok []

/-- Witness for C1: a batch of three calls — a non-terminating tool, a
terminating tool, and another non-terminating tool — all get responses
appended, and the run ends with the terminating tool's content. -/
theorem processToolCalls_termination_witness :
    processToolCalls "Coordinator" "gpt-4o-mini" 1 tkTerm parseDemo []
        [{ id := "1", callType := "function", name := "echo", arguments := "{}" },
         { id := "2", callType := "function", name := "finish", arguments := "{}" },
         { id := "3", callType := "function", name := "echo", arguments := "{}" }] =
      ([Msg.tool "1" "echo" "echoed", Msg.tool "2" "finish" "done",
        Msg.tool "3" "echo" "echoed"],
       some { content := .text "done"
              agentName := "Coordinator"
              success := true
              metadata :=
                { iterations := 1
                  model := some "gpt-4o-mini"
                  terminatedByTool := some "finish" } }) := by
  have h := processToolCalls_termination "Coordinator" "gpt-4o-mini" 1 tkTerm parseDemo []
    [{ id := "1", callType := "function", name := "echo", arguments := "{}" },
     { id := "2", callType := "function", name := "finish", arguments := "{}" },
     { id := "3", callType := "function", name := "echo", arguments := "{}" }]
    ({ id := "2", callType := "function", name := "finish", arguments := "{}" } : ToolCall)
    (tkTerm.executeTool "finish" [])
    (by decide) (by rfl)
  rw [h.1]
  rfl

/-- C2 counterexample: a batch of two calls where the first parses and the
second does not.  Both get tool-responses (two entries for two calls), but
the parse-error response for call `"2"` is appended in phase 1, before the
executed response for call `"1"`, so the responses are *not* in the original
request order. -/
theorem processToolCalls_order_counterexample :
    (processToolCalls "Agent" "m" 1 tkDemo parseDemo []
        [{ id := "1", callType := "function", name := "echo", arguments := "{}" },
         { id := "2", callType := "function", name := "echo", arguments := "bad" }]).1 =
      [Msg.tool "2" "echo" "Error: Invalid tool arguments - Expecting value: line 1 column 1 (char 0)",
       Msg.tool "1" "echo" "echoed"] ∧
    [Msg.tool "2" "echo" "Error: Invalid tool arguments - Expecting value: line 1 column 1 (char 0)",
         Msg.tool "1" "echo" "echoed"].map Msg.toolCallIdOf ≠
      ([{ id := "1", callType := "function", name := "echo", arguments := "{}" },
        { id := "2", callType := "function", name := "echo", arguments := "bad" }] :
          List ToolCall).map (fun tc => some tc.id) := by
  exact ⟨rfl, by decide⟩

/-- When every argument string parses, the executed responses are exactly
the per-request responses in original request order. -/
theorem toolResults_map_all_ok (tk : Toolkit) (parseJson : String → Except String Args) :
    ∀ (toolCalls : List ToolCall),
      (∀ tc ∈ toolCalls, ∃ a, parseJson tc.arguments = .ok a) →
      (toolResults tk parseJson toolCalls).map toolResponseMsg =
        toolCalls.map (fun tc =>
          match parseJson tc.arguments with
          | .ok a => toolResponseMsg (tc, tk.executeTool tc.name a)
          | .error e => Msg.tool tc.id tc.name ("Error: Invalid tool arguments - " ++ e)) := by
  intro toolCalls
  induction toolCalls with
  | nil => intro _; rfl
  | cons tc rest ih =>
      intro hok
      obtain ⟨a, ha⟩ := hok tc (List.mem_cons_self _ _)
      have ihr := ih (fun x hx => hok x (List.mem_cons_of_mem _ hx))
      simp only [toolResults, validToolCalls, List.filterMap_cons, ha, List.map_cons] at ihr ⊢
      rw [ihr]

/-- C2 (amended): after dispatch the history gains exactly N tool-response
entries, one per requested call — but the parse-error responses come first
(in request order), followed by the executed calls' responses (in request
order, independent of completion order since `gather` preserves input
order).  Only when every argument string parses is the appended segment
exactly in the original request order. -/
theorem processToolCalls_count_order (agentName model : String) (iteration : Nat)
    (tk : Toolkit) (parseJson : String → Except String Args)
    (messages : List Msg) (toolCalls : List ToolCall) :
    (processToolCalls agentName model iteration tk parseJson messages toolCalls).1 =
      messages ++ invalidArgMsgs parseJson toolCalls ++
        (toolResults tk parseJson toolCalls).map toolResponseMsg ∧
    (processToolCalls agentName model iteration tk parseJson messages toolCalls).1.length =
      messages.length + toolCalls.length ∧
    ((∀ tc ∈ toolCalls, ∃ a, parseJson tc.arguments = .ok a) →
      (processToolCalls agentName model iteration tk parseJson messages toolCalls).1 =
        messages ++ toolCalls.map (fun tc =>
          match parseJson tc.arguments with
          | .ok a => toolResponseMsg (tc, tk.executeTool tc.name a)
          | .error e => Msg.tool tc.id tc.name ("Error: Invalid tool arguments - " ++ e))) := by
  have hfold := respondStep_foldl (toolResults tk parseJson toolCalls)
    (messages ++ invalidArgMsgs parseJson toolCalls)
  have h1 :
      (processToolCalls agentName model iteration tk parseJson messages toolCalls).1 =
        messages ++ invalidArgMsgs parseJson toolCalls ++
          (toolResults tk parseJson toolCalls).map toolResponseMsg := by
    simp only [processToolCalls, hfold]
    cases findTermination (toolResults tk parseJson toolCalls) with
    | none => simp
    | some t => obtain ⟨fname, r⟩ := t; simp
  refine ⟨h1, ?_, ?_⟩
  · rw [h1]
    have hcount := invalid_valid_length parseJson toolCalls
    simp only [List.length_append, List.length_map, toolResults, List.length_map]
    omega
  · intro hok
    rw [h1]
    have hinv : invalidArgMsgs parseJson toolCalls = [] := by
      rw [invalidArgMsgs, List.filterMap_eq_nil_iff]
      intro tc htc
      obtain ⟨a, ha⟩ := hok tc htc
      simp [ha]
    rw [hinv, toolResults_map_all_ok tk parseJson toolCalls hok]
    simp

/-- Witness for C2 (amended): two well-formed calls yield exactly two
responses in the original request order. -/
theorem processToolCalls_count_order_witness :
    (processToolCalls "Agent" "m" 1 tkDemo parseDemo []
        [{ id := "1", callType := "function", name := "echo", arguments := "{}" },
         { id := "2", callType := "function", name := "boom", arguments := "{}" }]).1 =
      [Msg.tool "1" "echo" "echoed", Msg.tool "2" "boom" "Error: Simulated tool error"] ∧
    (processToolCalls "Agent" "m" 1 tkDemo parseDemo []
        [{ id := "1", callType := "function", name := "echo", arguments := "{}" },
         { id := "2", callType := "function", name := "boom", arguments := "{}" }]).1.length =
      0 + 2 := by
  have h := processToolCalls_count_order "Agent" "m" 1 tkDemo parseDemo []
    [{ id := "1", callType := "function", name := "echo", arguments := "{}" },
     { id := "2", callType := "function", name := "boom", arguments := "{}" }]
  refine ⟨?_, h.2.1⟩
  have h3 := h.2.2 (by intro tc htc; exact ⟨[], by fin_cases htc <;> rfl⟩)
  rw [h3]
  rfl

/-- C10: for an agent whose system prompt is a template string and whose
system context is non-empty, when substituting the context into the template
fails with a missing-key error, the resolved system prompt is the raw
template string returned unchanged (braces intact) — resolution does not
raise in that scenario. -/
theorem systemPrompt_missing_key (s : String) (ctx : List (String × String))
    (k : String) (hctx : ctx ≠ []) (hfmt : pyFormat s ctx = .error (.keyError k)) :
    resolveSystemPrompt (.text s) ctx = .ok s := by
  have hne : ctx.isEmpty = false := by
    cases ctx with
    | nil => exact absurd rfl hctx
    | cons a l => rfl
  simp [resolveSystemPrompt, hne, hfmt]

/-- Witness for C10: the template mentions `\x7bname\x7d` but the context
only provides `place`, so formatting raises `KeyError` and the raw template
comes back. -/
theorem systemPrompt_missing_key_witness :
    pyFormat "Hello \x7bname\x7d, welcome to \x7bplace\x7d" [("place", "Leanland")] =
      .error (.keyError "name") ∧
    resolveSystemPrompt (.text "Hello \x7bname\x7d, welcome to \x7bplace\x7d")
        [("place", "Leanland")] =
      .ok "Hello \x7bname\x7d, welcome to \x7bplace\x7d" := by
  refine ⟨by decide, ?_⟩
  exact systemPrompt_missing_key _ _ "name" (by decide) (by decide)

/-- Unfolding `groupMessages` at an assistant message carrying tool calls. -/
theorem groupMessages_cons_pos (m : Msg) (rest : List Msg)
    (h : m.hasToolCalls = true) :
    groupMessages (m :: rest) =
      (m :: rest.takeWhile Msg.isToolRole) ::
        groupMessages (rest.dropWhile Msg.isToolRole) := by
  rw [groupMessages]
  simp [h]

/-- Unfolding `groupMessages` at any other message. -/
theorem groupMessages_cons_neg (m : Msg) (rest : List Msg)
    (h : m.hasToolCalls = false) :
    groupMessages (m :: rest) = [m] :: groupMessages rest := by
  rw [groupMessages]
  simp [h]

/-- Dropping a prefix-predicate across an append stops no later than an
element falsifying the predicate. -/
theorem dropWhile_append_cons_of_neg {α : Type} (p : α → Bool) (x : α)
    (hx : p x = false) :
    ∀ (l₁ l₂ : List α),
      List.dropWhile p (l₁ ++ x :: l₂) = List.dropWhile p l₁ ++ x :: l₂ := by
  intro l₁ l₂
  induction l₁ with
  | nil => simp [List.dropWhile_cons, hx]
  | cons a l₁ ih =>
      cases ha : p a with
      | true => simp [List.dropWhile_cons, ha, ih]
      | false => simp [List.dropWhile_cons, ha]

/-- Flattening the groups gives back the original message list. -/
theorem groupMessages_flatten (msgs : List Msg) :
    (groupMessages msgs).flatten = msgs := by
  induction msgs using groupMessages.induct with
  | case1 =>
      rw [groupMessages]
      rfl
  | case2 m rest h ih =>
      rw [groupMessages_cons_pos m rest h]
      simp only [List.flatten_cons, ih, List.cons_append]
      rw [List.takeWhile_append_dropWhile]
  | case3 m rest h ih =>
      rw [groupMessages_cons_neg m rest (by simpa using h)]
      simp [ih]

/-- An assistant message with tool calls heads a group holding exactly the
run of tool responses that follows it, wherever the block sits in the
history. -/
theorem assistantBlock_mem_groupMessages (c : Option String) (tcs : List ToolCall)
    (suf : List Msg) (htcs : tcs ≠ []) :
    ∀ pre : List Msg,
      (Msg.assistant c tcs :: suf.takeWhile Msg.isToolRole) ∈
        groupMessages (pre ++ Msg.assistant c tcs :: suf)
  | [] => by
      have h : (Msg.assistant c tcs).hasToolCalls = true := by
        simp [Msg.hasToolCalls, htcs]
      rw [List.nil_append, groupMessages_cons_pos _ _ h]
      exact List.mem_cons_self _ _
  | p :: pre' => by
      by_cases hp : p.hasToolCalls = true
      · rw [List.cons_append, groupMessages_cons_pos _ _ hp]
        have hA : Msg.isToolRole (Msg.assistant c tcs) = false := rfl
        rw [dropWhile_append_cons_of_neg Msg.isToolRole _ hA pre' suf]
        exact List.mem_cons_of_mem _
          (assistantBlock_mem_groupMessages c tcs suf htcs (pre'.dropWhile Msg.isToolRole))
      · rw [List.cons_append, groupMessages_cons_neg _ _ (by simpa using hp)]
        exact List.mem_cons_of_mem _
          (assistantBlock_mem_groupMessages c tcs suf htcs pre')
termination_by pre => pre.length
decreasing_by
  · have h := (List.dropWhile_sublist Msg.isToolRole (l := pre')).length_le
    simp only [List.length_cons]
    omega
  · simp only [List.length_cons]
    omega

/-- C5: partitioning a message sequence with `_group_messages` and
concatenating the groups in order yields exactly the original sequence, and
every assistant message carrying tool calls forms a single group together
with all immediately following tool-role messages — the block is never split
across groups. -/
theorem groupMessages_roundtrip_blocks (msgs : List Msg) :
    (groupMessages msgs).flatten = msgs ∧
    ∀ (pre suf : List Msg) (c : Option String) (tcs : List ToolCall),
      tcs ≠ [] → msgs = pre ++ Msg.assistant c tcs :: suf →
      (Msg.assistant c tcs :: suf.takeWhile Msg.isToolRole) ∈ groupMessages msgs := by
  refine ⟨groupMessages_flatten msgs, ?_⟩
  intro pre suf c tcs htcs hmsgs
  rw [hmsgs]
  exact assistantBlock_mem_groupMessages c tcs suf htcs pre

/-- A concrete tool call for witnesses. -/
def tcW : ToolCall :=
  { id := "w1", callType := "function", name := "lookup", arguments := "\x7b\x7d" }

/-- Witness for C5: a history with a user turn followed by an
assistant-with-tool-calls block and two tool responses; the block is one
group and flattening restores the history. -/
theorem groupMessages_roundtrip_blocks_witness :
    (groupMessages [Msg.user "q", Msg.assistant (some "c") [tcW],
        Msg.tool "w1" "lookup" "r1", Msg.tool "w2" "lookup" "r2"]).flatten =
      [Msg.user "q", Msg.assistant (some "c") [tcW],
        Msg.tool "w1" "lookup" "r1", Msg.tool "w2" "lookup" "r2"] ∧
    [Msg.assistant (some "c") [tcW], Msg.tool "w1" "lookup" "r1",
        Msg.tool "w2" "lookup" "r2"] ∈
      groupMessages [Msg.user "q", Msg.assistant (some "c") [tcW],
        Msg.tool "w1" "lookup" "r1", Msg.tool "w2" "lookup" "r2"] := by
  have h := groupMessages_roundtrip_blocks
    [Msg.user "q", Msg.assistant (some "c") [tcW],
      Msg.tool "w1" "lookup" "r1", Msg.tool "w2" "lookup" "r2"]
  refine ⟨h.1, ?_⟩
  have hm := h.2 [Msg.user "q"]
    [Msg.tool "w1" "lookup" "r1", Msg.tool "w2" "lookup" "r2"]
    (some "c") [tcW] (by simp) rfl
  simpa [List.takeWhile_cons, Msg.isToolRole] using hm

/-- The kept groups are a sublist of the (reversed) groups walked. -/
theorem keepGroups_sublist (avail : Int) :
    ∀ (rs : List (List Msg)) (kept : Nat), List.Sublist (keepGroups avail rs kept) rs.reverse := by
  intro rs
  induction rs with
  | nil => intro kept; simp [keepGroups]
  | cons g older ih =>
      intro kept
      by_cases h : ((kept : Int) + estimateMessageTokens g ≤ avail)
      · rw [List.reverse_cons]
        simp only [keepGroups, if_pos h]
        exact (ih _).append (List.Sublist.refl _)
      · simp only [keepGroups, if_neg h]
        exact List.nil_sublist _

/-- Flattening a sublist of groups yields no more elements. -/
theorem flatten_length_le_of_sublist {α : Type} {l₁ l₂ : List (List α)}
    (h : List.Sublist l₁ l₂) : l₁.flatten.length ≤ l₂.flatten.length := by
  induction h with
  | slnil => simp
  | cons x _ ih => simp only [List.flatten_cons, List.length_append]; omega
  | cons₂ x _ ih => simp only [List.flatten_cons, List.length_append]; omega

/-- The keep loop's running total never exceeds the budget: whatever has
already been accounted for, the kept groups' estimates fit in the
remainder. -/
theorem keepGroups_sum_le (avail : Int) :
    ∀ (rs : List (List Msg)) (kept : Nat), (kept : Int) ≤ avail →
      (kept : Int) + (((keepGroups avail rs kept).map estimateMessageTokens).sum : Int) ≤ avail := by
  intro rs
  induction rs with
  | nil =>
      intro kept h
      simpa [keepGroups] using h
  | cons g older ih =>
      intro kept h
      by_cases hg : ((kept : Int) + estimateMessageTokens g ≤ avail)
      · simp only [keepGroups, if_pos hg, List.map_append, List.sum_append,
          List.map_cons, List.sum_cons, List.map_nil, List.sum_nil]
        have hih := ih (kept + estimateMessageTokens g) (by push_cast at hg ⊢; omega)
        push_cast at hih ⊢
        omega
      · simp only [keepGroups, if_neg hg, List.map_nil, List.sum_nil]
        simpa using h

/-- C4: with a configured context window, when the budget left after the
fixed costs is positive, the trimmed view keeps the system message as its
first entry, is never longer than the input history, and its estimated cost
(system message + kept groups + serialized tool schemas + response reserve)
does not exceed the window; when that remaining budget is non-positive, the
full unmodified history is returned instead. -/
theorem prepareMessages_spec (window : Nat) (maxTokens : Option Nat)
    (toolSchemasJson : Option String) (messages : List Msg)
    (hne : messages ≠ []) :
    (availableBudget window maxTokens toolSchemasJson messages ≤ 0 →
      prepareMessages (some window) maxTokens toolSchemasJson messages = messages) ∧
    (0 < availableBudget window maxTokens toolSchemasJson messages →
      (prepareMessages (some window) maxTokens toolSchemasJson messages).head? =
        messages.head? ∧
      (prepareMessages (some window) maxTokens toolSchemasJson messages).length ≤
        messages.length ∧
      (estimateMessageTokens (messages.take 1) : Int) +
        (((keptGroupsOf window maxTokens toolSchemasJson messages).map
            estimateMessageTokens).sum : Int) +
        (schemaTokens toolSchemasJson : Int) +
        ((maxTokens.getD 4096 : Nat) : Int) ≤ (window : Int)) := by
  obtain ⟨m, tl, rfl⟩ : ∃ m tl, messages = m :: tl := by
    cases messages with
    | nil => exact absurd rfl hne
    | cons m tl => exact ⟨m, tl, rfl⟩
  constructor
  · intro h
    simp [prepareMessages, if_pos h]
  · intro h
    have hnot : ¬ availableBudget window maxTokens toolSchemasJson (m :: tl) ≤ 0 :=
      not_le.mpr h
    have hprep :
        prepareMessages (some window) maxTokens toolSchemasJson (m :: tl) =
          (m :: tl).take 1 ++
            (keptGroupsOf window maxTokens toolSchemasJson (m :: tl)).flatten := by
      simp [prepareMessages, if_neg hnot]
    refine ⟨?_, ?_, ?_⟩
    · rw [hprep]
      rfl
    · rw [hprep]
      have hsub := keepGroups_sublist
        (availableBudget window maxTokens toolSchemasJson (m :: tl))
        (groupMessages ((m :: tl).drop 1)).reverse 0
      have hlen := flatten_length_le_of_sublist hsub
      rw [List.reverse_reverse, groupMessages_flatten] at hlen
      simp only [keptGroupsOf, List.take_succ_cons, List.take_zero, List.drop_succ_cons,
        List.drop_zero, List.length_append, List.length_cons, List.length_nil] at hlen ⊢
      omega
    · have hsum := keepGroups_sum_le
        (availableBudget window maxTokens toolSchemasJson (m :: tl))
        (groupMessages ((m :: tl).drop 1)).reverse 0 (by omega)
      simp only [Nat.cast_zero, zero_add] at hsum
      rw [keptGroupsOf]
      have heq : availableBudget window maxTokens toolSchemasJson (m :: tl) =
          (window : Int) - estimateMessageTokens ((m :: tl).take 1) -
            schemaTokens toolSchemasJson - (maxTokens.getD 4096 : Nat) := rfl
      omega

/-- Witness for C4: a two-message history under a 5000-token window with no
tools and the default reserve. -/
theorem prepareMessages_spec_witness :
    (prepareMessages (some 5000) none none [Msg.system "sys", Msg.user "hi"]).head? =
      some (Msg.system "sys") ∧
    (prepareMessages (some 5000) none none [Msg.system "sys", Msg.user "hi"]).length ≤ 2 ∧
    (estimateMessageTokens ([Msg.system "sys", Msg.user "hi"].take 1) : Int) +
      (((keptGroupsOf 5000 none none [Msg.system "sys", Msg.user "hi"]).map
          estimateMessageTokens).sum : Int) + (schemaTokens none : Int) +
      ((4096 : Nat) : Int) ≤ (5000 : Int) := by
  have h := (prepareMessages_spec 5000 none none [Msg.system "sys", Msg.user "hi"]
    (by simp)).2 (by decide)
  exact ⟨by rw [h.1]; rfl, h.2.1, h.2.2⟩

/-- The positional parameters of `AgentToolkit.register_delegate` as defined
in toolkit.py line 282: `(self, agent, tool_name=None, description=None)` —
no `parameters` parameter and no variadics. -/
def toolkitRegisterDelegateParams : List String :=
  ["self", "agent", "tool_name", "description"]

/-- The number of positional argument slots of the call
`self.toolkit.register_delegate(agent, tool_name, description, parameters)`
in `BaseAgent.register_delegate` (agent.py line 917): the receiver plus four
arguments. -/
def agentRegisterDelegateCallArity : Nat := 5

/-- Python's positional-arity check for a function without variadic
parameters: the call binds only if the positional arguments fit the
positional parameters. -/
def pyCallBinds (params : List String) (positionalArgs : Nat) : Bool :=
  positionalArgs ≤ params.length

/-- `end_delegation` on a stack whose top is the matching delegation frame
over the delegating agent's own frame: the walk finds that agent frame, so
for positive remaining depth the parent cursor becomes the delegating
agent's *own* name. -/
theorem endDelegation_agentTop (fromA toA c : String) (st : List Frame)
    (d : Nat) (p rid : Option String) (ev : List TraceEv) (ts : List String) :
    endDelegation fromA toA
      { events := ev, stack := Frame.delegationF fromA toA :: Frame.agentF c :: st,
        depth := d + 1, parent := p, runId := rid, toolStarts := ts } =
      { events := ev ++
          [{ eventType := "delegation_end", agentName := fromA, runId := rid,
             parentAgent := if 0 < d then some c else none, delegationDepth := d,
             toolName := none, toolCallId := none }],
        stack := Frame.agentF c :: st, depth := d,
        parent := if 0 < d then some c else none,
        runId := rid, toolStarts := ts } := by
  by_cases h : 0 < d
  · simp [endDelegation, addEvent, findAgentFrame, h]
  · simp [endDelegation, addEvent, findAgentFrame, h, Nat.eq_zero_of_not_pos h]

/-- Running one chain segment: the final state keeps the entry stack, depth
and side table, appends exactly the `chainEvents` of the segment, clears the
run id, and — when the segment actually delegated — leaves the parent cursor
at the segment head's own name (or `None` at top level). -/
theorem chainRun_spec :
    ∀ (rest : List String) (c : String) (s : TState),
      chainRun c rest s =
        { events := s.events ++ chainEvents s.runId s.depth s.parent c rest
          stack := s.stack
          depth := s.depth
          parent := if rest.isEmpty then s.parent
                    else if 0 < s.depth then some c else none
          runId := none
          toolStarts := s.toolStarts } := by
  intro rest
  induction rest with
  | nil =>
      intro c s
      obtain ⟨ev, st, d, p, rid, ts⟩ := s
      simp [chainRun, startAgent, endAgent, endRun, addEvent, chainEvents]
  | cons next rest ih =>
      intro c s
      obtain ⟨ev, st, d, p, rid, ts⟩ := s
      simp only [chainRun, startAgent, startToolCall, startDelegation, addEvent, ih,
        endDelegation_agentTop, endToolCall, endAgent, endRun, chainEvents,
        removeFirst, List.mem_cons, List.cons_ne_self, or_false, true_or, if_true,
        List.append_assoc, List.cons_append, List.nil_append, List.singleton_append]
      simp [List.mem_cons, removeFirst]

/-- The parent value a chain event actually carries, indexed by the chain
position of its agent: position `0` is the segment head (entry parent for
`agent_start`/`tool_call` and for a non-delegating head; own name — or
`None` at depth 0 — for the post-delegation events); deeper positions recurse
with the head as the new entry parent. -/
def chainParent (p : Option String) (a : String) (d : Nat) (etype : String) :
    List String → Nat → Option String
  | rest, 0 =>
      if etype = "agent_start" ∨ etype = "tool_call" ∨ rest = [] then p
      else if 0 < d then some a else none
  | [], _ + 1 => none
  | next :: rest, j + 1 => chainParent (some a) next (d + 1) etype rest j

/-- Every chain event is attributed to an agent of the chain. -/
theorem agentName_mem_of_mem_chainEvents :
    ∀ (rest : List String) (a : String) (rid : Option String) (d : Nat)
      (p : Option String) (e : TraceEv),
      e ∈ chainEvents rid d p a rest → e.agentName ∈ a :: rest := by
  intro rest
  induction rest with
  | nil =>
      intro a rid d p e he
      simp only [chainEvents, List.mem_cons, List.not_mem_nil, or_false] at he
      rcases he with rfl | rfl <;> simp
  | cons next rest ih =>
      intro a rid d p e he
      simp only [chainEvents, List.mem_cons, List.mem_append, List.not_mem_nil,
        or_false] at he
      rcases he with rfl | rfl | rfl | hn | rfl | rfl | rfl
      · simp
      · simp
      · simp
      · have := ih next rid (d + 1) (some a) e hn
        simp only [List.mem_cons] at this ⊢
        tauto
      · simp
      · simp
      · simp

/-- In a duplicate-free chain, an event named after the head sits at index
0. -/
theorem index_zero_of_getD_eq_head {l : List String} {a : String} {i : Nat}
    (hi : i < (a :: l).length) (hnd : (a :: l).Nodup)
    (h : (a :: l).getD i "" = a) : i = 0 := by
  by_contra hne
  obtain ⟨j, rfl⟩ : ∃ j, i = j + 1 := ⟨i - 1, by omega⟩
  rw [List.getD_cons_succ] at h
  have hj : j < l.length := by
    simp only [List.length_cons] at hi
    omega
  rw [List.getD_eq_getElem l "" hj] at h
  have hmem : a ∈ l := h ▸ List.getElem_mem hj
  exact (List.nodup_cons.mp hnd).1 hmem

/-- Depth and parent of every event of a chain segment, by the chain index
of the event's agent: depth is the entry depth plus the index, and the
parent is `chainParent`. -/
theorem chainEvents_parent_depth :
    ∀ (rest : List String) (a : String) (rid : Option String) (d : Nat)
      (p : Option String) (e : TraceEv) (i : Nat) (hi : i < (a :: rest).length),
      (a :: rest).Nodup → e ∈ chainEvents rid d p a rest →
      e.agentName = (a :: rest).getD i "" →
      e.delegationDepth = d + i ∧
      e.parentAgent = chainParent p a d e.eventType rest i := by
  intro rest
  induction rest with
  | nil =>
      intro a rid d p e i hi hnd he hname
      have hi0 : i = 0 := by
        simp only [List.length_cons, List.length_nil] at hi
        omega
      subst hi0
      simp only [chainEvents, List.mem_cons, List.not_mem_nil, or_false] at he
      rcases he with rfl | rfl <;> simp [chainParent]
  | cons next rest ih =>
      intro a rid d p e i hi hnd he hname
      have hnd' : (next :: rest).Nodup := hnd.of_cons
      have hna : a ∉ next :: rest := (List.nodup_cons.mp hnd).1
      simp only [chainEvents, List.mem_cons, List.mem_append, List.not_mem_nil,
        or_false] at he
      rcases he with rfl | rfl | rfl | hn | rfl | rfl | rfl
      · -- agent_start of the head
        have hi0 : i = 0 := index_zero_of_getD_eq_head hi hnd (by simpa using hname.symm)
        subst hi0
        simp [chainParent]
      · -- tool_call of the head
        have hi0 : i = 0 := index_zero_of_getD_eq_head hi hnd (by simpa using hname.symm)
        subst hi0
        simp [chainParent]
      · -- agent_delegate of the head
        have hi0 : i = 0 := index_zero_of_getD_eq_head hi hnd (by simpa using hname.symm)
        subst hi0
        rcases Nat.eq_zero_or_pos d with hd | hd
        · subst hd; simp [chainParent]
        · have h1 : 1 < d + 1 := by omega
          simp [chainParent, hd, h1]
      · -- an event of the delegated sub-chain
        have hmem := agentName_mem_of_mem_chainEvents rest next rid (d + 1) (some a) e hn
        have hne : i ≠ 0 := by
          intro h0
          subst h0
          apply hna
          have hget : (a :: next :: rest).getD 0 "" = a := rfl
          rw [hname, hget] at hmem
          exact hmem
        obtain ⟨j, rfl⟩ : ∃ j, i = j + 1 := ⟨i - 1, by omega⟩
        have hj : j < (next :: rest).length := by
          simp only [List.length_cons] at hi ⊢
          omega
        have hname' : e.agentName = (next :: rest).getD j "" := by
          rw [hname, List.getD_cons_succ]
        have hIH := ih next rid (d + 1) (some a) e j hj hnd' hn hname'
        refine ⟨by rw [hIH.1]; omega, ?_⟩
        rw [hIH.2]
        rfl
      · -- delegation_end of the head
        have hi0 : i = 0 := index_zero_of_getD_eq_head hi hnd (by simpa using hname.symm)
        subst hi0
        simp [chainParent]
      · -- tool_result of the head
        have hi0 : i = 0 := index_zero_of_getD_eq_head hi hnd (by simpa using hname.symm)
        subst hi0
        simp [chainParent]
      · -- agent_end of the head
        have hi0 : i = 0 := index_zero_of_getD_eq_head hi hnd (by simpa using hname.symm)
        subst hi0
        simp [chainParent]

/-- `chainParent` in closed form over the chain index. -/
theorem chainParent_eq :
    ∀ (rest : List String) (a : String) (p : Option String) (d : Nat)
      (etype : String) (i : Nat), i < (a :: rest).length →
      chainParent p a d etype rest i =
        (if i = 0 then
          (if etype = "agent_start" ∨ etype = "tool_call" ∨ rest = [] then p
           else if 0 < d then some a else none)
         else
          (if etype = "agent_start" ∨ etype = "tool_call" ∨ i = rest.length
           then some ((a :: rest).getD (i - 1) "")
           else some ((a :: rest).getD i ""))) := by
  intro rest
  induction rest with
  | nil =>
      intro a p d etype i hi
      have hi0 : i = 0 := by
        simp only [List.length_cons, List.length_nil] at hi
        omega
      subst hi0
      simp [chainParent]
  | cons next rest ih =>
      intro a p d etype i hi
      match i with
      | 0 => simp [chainParent]
      | j + 1 =>
          have hj : j < (next :: rest).length := by
            simp only [List.length_cons] at hi ⊢
            omega
          have hLHS : chainParent p a d etype (next :: rest) (j + 1) =
              chainParent (some a) next (d + 1) etype rest j := rfl
          rw [hLHS, ih next (some a) (d + 1) etype j hj]
          match j with
          | 0 =>
              by_cases hA : etype = "agent_start" ∨ etype = "tool_call"
              · rcases hA with hA | hA <;> simp [hA]
              · obtain ⟨hA1, hA2⟩ := not_or.mp hA
                by_cases hr : rest = []
                · subst hr
                  simp [hA1, hA2]
                · have hlen : ¬ ((1 : Nat) = (next :: rest).length) := by
                    cases rest with
                    | nil => exact absurd rfl hr
                    | cons b bs => simp
                  simp [hA1, hA2, hr, hlen]
          | k + 1 =>
              have hCiff : (k + 1 + 1 = (next :: rest).length) ↔ (k + 1 = rest.length) := by
                simp [List.length_cons]
              by_cases hC : etype = "agent_start" ∨ etype = "tool_call" ∨ k + 1 = rest.length
              · have hC2 : etype = "agent_start" ∨ etype = "tool_call" ∨
                    (k + 1 + 1 = (next :: rest).length) := by
                  rcases hC with h | h | h
                  · exact Or.inl h
                  · exact Or.inr (Or.inl h)
                  · exact Or.inr (Or.inr (hCiff.mpr h))
                rw [if_pos hC, if_pos hC2]
                simp [List.getD_cons_succ]
              · have hC2 : ¬ (etype = "agent_start" ∨ etype = "tool_call" ∨
                    (k + 1 + 1 = (next :: rest).length)) := by
                  intro hc
                  rcases hc with h | h | h
                  · exact hC (Or.inl h)
                  · exact hC (Or.inr (Or.inl h))
                  · exact hC (Or.inr (Or.inr (hCiff.mp h)))
                rw [if_neg hC, if_neg hC2]
                simp [List.getD_cons_succ]

/-- C6 (amended): for every delegation chain of distinct agent names sharing
one recorder, every trace event for agent `i` reports
`delegation_depth = i`; `parent_agent` is null for agent 0's events, and for
`i > 0` it equals agent `i-1`'s name on the `agent_start` and `tool_call`
events and on every event of the deepest agent — but on the events an
intermediate agent emits from its own `start_delegation` onward
(`agent_delegate`, `delegation_end`, `tool_result`, `agent_end`) it equals
agent `i`'s *own* name instead of its parent's. -/
theorem chainTrace_depth_parent (names : List String) (hnd : names.Nodup)
    (e : TraceEv) (he : e ∈ chainTrace names) (i : Nat) (hi : i < names.length)
    (hname : e.agentName = names.getD i "") :
    e.delegationDepth = i ∧
    e.parentAgent =
      (if i = 0 then none
       else if e.eventType = "agent_start" ∨ e.eventType = "tool_call" ∨
           i = names.length - 1
       then some (names.getD (i - 1) "")
       else some (names.getD i "")) := by
  match names with
  | [] => simp at hi
  | a :: rest =>
      have htr : chainTrace (a :: rest) = chainEvents (some "run0") 0 none a rest := by
        show (chainRun a rest (startRun "run0" initState)).events = _
        rw [chainRun_spec]
        rfl
      rw [htr] at he
      have h := chainEvents_parent_depth rest a (some "run0") 0 none e i hi hnd he hname
      refine ⟨by simpa using h.1, ?_⟩
      rw [h.2, chainParent_eq rest a none 0 e.eventType i hi]
      by_cases h0 : i = 0
      · subst h0
        simp
      · simp only [if_neg h0, List.length_cons, Nat.add_sub_cancel]

/-- C6 counterexample: in the concrete chain A → B → C sharing one
recorder, not every event of agent B (index 1) carries
`parent_agent = "A"`; in particular B's `agent_end` event reports
`parent_agent = "B"` (its own name) at depth 1. -/
theorem chainTrace_parent_counterexample :
    (¬ ∀ e ∈ chainTrace ["A", "B", "C"],
        e.agentName = "B" → e.parentAgent = some "A") ∧
    (∃ e ∈ chainTrace ["A", "B", "C"],
        e.agentName = "B" ∧ e.eventType = "agent_end" ∧
        e.parentAgent = some "B" ∧ e.delegationDepth = 1) := by
  decide

/-- Witness for C6 (amended): agent C's `agent_start` in the A → B → C chain
reports depth 2 and parent B. -/
theorem chainTrace_depth_parent_witness :
    ({ eventType := "agent_start", agentName := "C", runId := some "run0",
       parentAgent := some "B", delegationDepth := 2, toolName := none,
       toolCallId := none } : TraceEv).delegationDepth = 2 ∧
    ({ eventType := "agent_start", agentName := "C", runId := some "run0",
       parentAgent := some "B", delegationDepth := 2, toolName := none,
       toolCallId := none } : TraceEv).parentAgent = some "B" := by
  have h := chainTrace_depth_parent ["A", "B", "C"] (by decide)
    { eventType := "agent_start", agentName := "C", runId := some "run0",
      parentAgent := some "B", delegationDepth := 2, toolName := none,
      toolCallId := none }
    (by decide) 2 (by decide) (by rfl)
  refine ⟨h.1, ?_⟩
  rw [h.2]
  decide

end Fractal

namespace Fractal

/-- C7 evidence: the forwarding call in `BaseAgent.register_delegate`
passes one more positional argument than `AgentToolkit.register_delegate`
accepts, and no parameter named `parameters` exists to bind it — so every
such call (with or without a supplied `parameters` mapping) raises
`TypeError` at the Python call boundary instead of performing the
registration-time validation the claim describes. -/
theorem registerDelegateParams_mismatch :
    pyCallBinds toolkitRegisterDelegateParams agentRegisterDelegateCallArity = false ∧
    "parameters" ∉ toolkitRegisterDelegateParams := by
  decide

end Fractal
